import Mathlib

/-!
Verification of the geometric analysis and interaction engine of the
SolarPanel viewer (src/Raycasting/Dragging). Each section embeds one part
of the source as Lean definitions and proves the spec's claims about it:
the draggable-object classifier, the shadow-coverage estimator, the
coplanar face merger, the pivot-offset transform engine, the four-point
panel validator and the delete operation.

Conventions of the embedding:
* JavaScript numbers are modelled as `ℚ` where every operation used is
  rational (classifier thresholds, raycast hit distances, the sample
  counter) and as `ℝ` where the source normalizes vectors (`Real.sqrt`).
* The three.js scene graph, raycaster and bounding-box queries are the
  external collaborators named by the spec; a node carries the data those
  queries return (its bounding box, its hit distance for the ray under
  consideration), and object identity is modelled by an id.
-/

namespace SolarPanel

/-- A 3-vector with rational components, for the parts of the code whose
arithmetic is exact. -/
structure Vec3Q where
  x : ℚ
  y : ℚ
  z : ℚ
deriving DecidableEq, Repr

/-! ## Draggable Object Classifier (`identifyDraggableObjectsByDimension`)

The first pass of `identifyDraggableObjectsByDimension` examines every
node below the root: a user-created 2D panel mesh is pushed unconditionally;
otherwise the node must be a mesh or a group, contain a mesh, have a
non-degenerate world bounding box, and satisfy the threshold pair
`maxDim ≤ 1.2 ∧ minDim ≥ 0.1`. The bounding box of a node is the scene
graph's `Box3.setFromObject` query, carried here as node data. -/

/-- A scene-graph node as the classifier sees it: `isMesh`, `isGroup`,
`userData.is2DPanel`, its world bounding box (min and max corner), and its
children. -/
inductive GNode : Type where
  | node (isMesh isGroup is2DPanel : Bool) (bmin bmax : Vec3Q)
      (children : List GNode) : GNode

def GNode.isMesh : GNode → Bool
  | .node m _ _ _ _ _ => m

def GNode.isGroup : GNode → Bool
  | .node _ g _ _ _ _ => g

def GNode.is2DPanel : GNode → Bool
  | .node _ _ p _ _ _ => p

def GNode.bmin : GNode → Vec3Q
  | .node _ _ _ mn _ _ => mn

def GNode.bmax : GNode → Vec3Q
  | .node _ _ _ _ mx _ => mx

-- `containsMesh` from the source: the node is a mesh or some descendant is.
mutual

def containsMesh : GNode → Bool
  | .node m _ _ _ _ ch => m || containsMeshList ch

def containsMeshList : List GNode → Bool
  | [] => false
  | c :: cs => containsMesh c || containsMeshList cs

end

/-- `Box3.getSize`: componentwise `max − min`. -/
def bboxSize (mn mx : Vec3Q) : Vec3Q :=
  ⟨mx.x - mn.x, mx.y - mn.y, mx.z - mn.z⟩

/-- `Box3.isEmpty`: some max component below the min. -/
def bboxEmpty (mn mx : Vec3Q) : Bool :=
  decide (mx.x < mn.x) || decide (mx.y < mn.y) || decide (mx.z < mn.z)

/-- The degeneracy test of the classifier's first pass: all three max
components equal the min components (the box is a single point). -/
def bboxPoint (mn mx : Vec3Q) : Bool :=
  decide (mx.x = mn.x) && decide (mx.y = mn.y) && decide (mx.z = mn.z)

/-- `Math.max(size.x, size.y, size.z)` of the bounding box size. -/
def maxDim (mn mx : Vec3Q) : ℚ :=
  max (max (bboxSize mn mx).x (bboxSize mn mx).y) (bboxSize mn mx).z

/-- `Math.min(size.x, size.y, size.z)` of the bounding box size. -/
def minDim (mn mx : Vec3Q) : ℚ :=
  min (min (bboxSize mn mx).x (bboxSize mn mx).y) (bboxSize mn mx).z

/-- The body of the classifier's first-pass callback with the production
thresholds `DRAGGABLE_MAX_DIMENSION = 1.2` and `DRAGGABLE_MIN_DIMENSION = 0.1`:
whether the examined node is pushed as a draggable candidate. -/
def isCandidate (n : GNode) : Bool :=
  if n.isMesh && n.is2DPanel then true
  else if !n.isMesh && !n.isGroup then false
  else if !containsMesh n then false
  else if bboxEmpty n.bmin n.bmax || bboxPoint n.bmin n.bmax then false
  else decide (maxDim n.bmin n.bmax ≤ 1.2) && decide (0.1 ≤ minDim n.bmin n.bmax)

/-- A rigid unit (plain mesh) with bbox extents (0.05, 0.05, 0.05). -/
def exTiny : GNode := .node true false false ⟨0, 0, 0⟩ ⟨1/20, 1/20, 1/20⟩ []

/-- A rigid unit (plain mesh) with bbox extents (0.3, 0.3, 0.05). -/
def exFlat : GNode := .node true false false ⟨0, 0, 0⟩ ⟨3/10, 3/10, 1/20⟩ []

/-- A rigid unit (plain mesh) with bbox extents (1.5, 0.3, 0.3). -/
def exBig : GNode := .node true false false ⟨0, 0, 0⟩ ⟨3/2, 3/10, 3/10⟩ []

/-- A rigid unit (plain mesh) with bbox extents (0.3, 0.3, 0.3). -/
def exCube : GNode := .node true false false ⟨0, 0, 0⟩ ⟨3/10, 3/10, 3/10⟩ []

/-- C1 counterexample: the unit with bbox extents (0.3, 0.3, 0.05), which the
claim says is included, is excluded by the code — its smallest dimension 0.05
is below the 0.1 minimum — although it contains a mesh, its box is
non-degenerate and its largest dimension 0.3 is within the 1.2 maximum. -/
theorem classifier_flat_unit_excluded :
    isCandidate exFlat = false ∧ containsMesh exFlat = true ∧
    (bboxEmpty exFlat.bmin exFlat.bmax || bboxPoint exFlat.bmin exFlat.bmax) = false ∧
    maxDim exFlat.bmin exFlat.bmax ≤ 1.2 ∧ ¬ (0.1 ≤ minDim exFlat.bmin exFlat.bmax) := by
  refine ⟨?_, ?_, ?_, ?_, ?_⟩ <;>
    · simp only [isCandidate, exFlat, containsMesh, containsMeshList, GNode.isMesh,
        GNode.isGroup, GNode.is2DPanel, GNode.bmin, GNode.bmax, bboxEmpty, bboxPoint,
        maxDim, minDim, bboxSize, decide_eq_true_eq]
      norm_num

/-- C1 (amended): for every examined node that is a mesh or a group and is not
a user-created 2D panel (panels bypass all dimension checks), the node is a
draggable candidate iff it or a descendant contains a mesh, its bounding box is
non-degenerate, its largest dimension is at most 1.2 and its smallest dimension
is at least 0.1. A unit with extents (0.05, 0.05, 0.05) is excluded, a unit
with extents (0.3, 0.3, 0.05) is also excluded (its smallest dimension 0.05 is
below the 0.1 minimum), a unit with max extent 1.5 is excluded, and a unit with
extents (0.3, 0.3, 0.3) is included. -/
theorem classifier_candidate_iff :
    (∀ n : GNode, (n.isMesh = true ∨ n.isGroup = true) →
      (n.isMesh && n.is2DPanel) = false →
      (isCandidate n = true ↔
        (containsMesh n = true ∧
         (bboxEmpty n.bmin n.bmax || bboxPoint n.bmin n.bmax) = false ∧
         maxDim n.bmin n.bmax ≤ 1.2 ∧ 0.1 ≤ minDim n.bmin n.bmax))) ∧
    isCandidate exTiny = false ∧ isCandidate exFlat = false ∧
    isCandidate exBig = false ∧ isCandidate exCube = true := by
  refine ⟨?_, ?_, ?_, ?_, ?_⟩
  · intro n h1 h2
    have hmg : (!n.isMesh && !n.isGroup) = false := by
      rcases h1 with h | h <;> simp [h]
    rw [isCandidate, if_neg (by simp [h2]), if_neg (by simp [hmg])]
    cases hcm : containsMesh n with
    | false => simp
    | true =>
      rw [if_neg (by simp)]
      cases hbb : bboxEmpty n.bmin n.bmax || bboxPoint n.bmin n.bmax with
      | false => simp
      | true => simp
  all_goals
    simp only [isCandidate, exTiny, exFlat, exBig, exCube, containsMesh, containsMeshList,
      GNode.isMesh, GNode.isGroup, GNode.is2DPanel, GNode.bmin, GNode.bmax, bboxEmpty,
      bboxPoint, maxDim, minDim, bboxSize, decide_eq_true_eq]
    norm_num

/-! ## Shadow Coverage Estimator (`calculateShadowCoverage`)

Every sample draws a random surface point, offsets it toward the light and
raycasts. The raycaster (`intersectObjects` with `recursive = true`) is the
scene graph's external query: a node carries the hit distance of that query
for the ray under consideration (`none` = the ray misses the node's own
mesh), and the query returns the hits of all filtered subtrees sorted by
distance. The occlusion loop walks the sorted hits and stops at the first
hit whose node has `castShadow`. -/

/-- One entry of the raycaster's intersection list: its distance, the hit
node's `castShadow` flag and the hit node's id. -/
structure Hit where
  dist : ℚ
  castShadow : Bool
  nodeId : ℕ
deriving DecidableEq, Repr

/-- A scene-graph node as the shadow estimator sees it: its id, its
`castShadow` flag, the hit distance of the current occlusion ray against the
node's own mesh, and its children. -/
inductive SNode : Type where
  | node (id : ℕ) (castShadow : Bool) (hit : Option ℚ) (children : List SNode) : SNode

def SNode.id : SNode → ℕ
  | .node i _ _ _ => i

-- A node's subtree, the node itself first (`intersectObjects` with
-- `recursive = true` intersects each listed object and all its descendants).
mutual

def descendants : SNode → List SNode
  | .node i c h ch => .node i c h ch :: descendantsList ch

def descendantsList : List SNode → List SNode
  | [] => []
  | n :: ns => descendants n ++ descendantsList ns

end

/-- The current ray's hit against a single node's own mesh. -/
def nodeHit : SNode → Option Hit
  | .node i c h _ => h.map (fun d => ⟨d, c, i⟩)

/-- All hits of the current ray in a node's subtree. -/
def hitsOf (n : SNode) : List Hit :=
  (descendants n).filterMap nodeHit

/-- The raycaster returns intersections sorted by distance, nearest first. -/
def sortHits (l : List Hit) : List Hit :=
  List.insertionSort (fun a b => a.dist ≤ b.dist) l

/-- `raycasterForShadow.intersectObjects(scene.children.filter(child =>
child !== object && child !== directionalLight), true)`: the top-level scene
children equal to the sampled object or to the light are dropped, the rest
are intersected with their whole subtrees, and the hits come back sorted. -/
def intersectShadowRay (children : List SNode) (objId lightId : ℕ) : List Hit :=
  sortHits ((children.filter (fun c => c.id != objId && c.id != lightId)).flatMap hitsOf)

/-- The per-sample occlusion loop: walk the hits in order and report shadow
at the first hit whose node casts shadows. -/
def shadowLoop : List Hit → Bool
  | [] => false
  | h :: t => if h.castShadow then true else shadowLoop t

/-- Whether one sample of `calculateShadowCoverage` is counted as occluded. -/
def occludedSample (children : List SNode) (objId lightId : ℕ) : Bool :=
  shadowLoop (intersectShadowRay children objId lightId)

/-- The scene of the C2 counterexample: the sampled object (id 0), the light
(id 1), a nearer blocker (id 2) with `castShadow = false` hit at distance 1,
and a farther blocker (id 3) with `castShadow = true` hit at distance 2. -/
def cexScene : List SNode :=
  [.node 0 true none [], .node 1 false none [],
   .node 2 false (some 1) [], .node 3 true (some 2) []]

/-- C2 counterexample: in `cexScene` the nearest hit does not cast shadows,
so by the claim the sample would not be occluded; the code counts it as
occluded anyway, because a farther shadow-casting hit exists. -/
theorem shadow_nearest_hit_cex :
    occludedSample cexScene 0 1 = true ∧
    ((intersectShadowRay cexScene 0 1).head?.map Hit.castShadow) = some false := by
  constructor
  · simp [occludedSample, intersectShadowRay, cexScene, hitsOf, descendants,
      descendantsList, nodeHit, sortHits, shadowLoop, List.insertionSort, List.orderedInsert]
  · simp [intersectShadowRay, cexScene, hitsOf, descendants,
      descendantsList, nodeHit, sortHits, List.insertionSort, List.orderedInsert]

/-- The early-exit occlusion loop reports shadow iff some hit of the list
casts shadows. -/
theorem shadowLoop_eq_true_iff (l : List Hit) :
    shadowLoop l = true ↔ ∃ h ∈ l, h.castShadow = true := by
  induction l with
  | nil => simp [shadowLoop]
  | cons a t ih => by_cases ha : a.castShadow = true <;> simp [shadowLoop, ha, ih]

/-- C2 (amended): a sample is counted as occluded iff ANY hit of the
intersection list (not only the nearest) belongs to a shadow-casting node;
and a hit is in that list iff it comes from the subtree of a top-level scene
child other than the sampled object and the light. -/
theorem shadow_occluded_iff_any_hit (children : List SNode) (objId lightId : ℕ) :
    (occludedSample children objId lightId = true ↔
      ∃ h ∈ intersectShadowRay children objId lightId, h.castShadow = true) ∧
    (∀ h : Hit, h ∈ intersectShadowRay children objId lightId ↔
      ∃ c ∈ children, (c.id != objId && c.id != lightId) = true ∧ h ∈ hitsOf c) := by
  constructor
  · exact shadowLoop_eq_true_iff _
  · intro h
    rw [intersectShadowRay, sortHits,
      (List.perm_insertionSort (fun a b : Hit => a.dist ≤ b.dist) _).mem_iff]
    simp only [List.mem_flatMap, List.mem_filter]
    tauto

/-- The geometry of a mesh as the estimator checks it: an optional position
attribute (the vertex list) and an optional index buffer. -/
structure GeomData where
  position : Option (List Vec3Q)
  index : Option (List ℕ)

/-- The argument of `calculateShadowCoverage` when it is not absent. -/
structure ShadowInput where
  isMesh : Bool
  geometry : Option GeomData

/-- A JavaScript value returned by `calculateShadowCoverage`: the number `0`
of the failure paths, or the string produced by `toFixed(1)`, carried as the
number of tenths it denotes. -/
inductive CoverageResult : Type where
  | num (value : ℚ)
  | strTenths (tenths : ℤ)
deriving DecidableEq

/-- `x.toFixed(1)` as the integer number of tenths of the rounded value. -/
def toFixed1 (q : ℚ) : ℤ := round (q * 10)

/-- `calculateShadowCoverage`: 0 for an absent object, a non-mesh, a mesh
without geometry or a geometry without position data; otherwise 1000 samples
are drawn and the occluded fraction is formatted to one decimal.
`sceneChildren i` is the scene as sample `i`'s ray sees it (each node
carrying that ray's hit distance). -/
def calculateShadowCoverage (obj : Option ShadowInput)
    (sceneChildren : ℕ → List SNode) (objId lightId : ℕ) : CoverageResult :=
  match obj with
  | none => .num 0
  | some o =>
    if !o.isMesh then .num 0
    else
      match o.geometry with
      | none => .num 0
      | some g =>
        match g.position with
        | none => .num 0
        | some _ =>
          let shadowedSamples :=
            (List.range 1000).countP (fun i => occludedSample (sceneChildren i) objId lightId)
          .strTenths (toFixed1 ((shadowedSamples : ℚ) / 1000 * 100))

/-- C8: the failure paths return the number 0; every other input yields a
one-decimal string whose value lies between 0 and 100 (0 to 1000 tenths) —
a string, unlike the numeric 0 of the failure cases. -/
theorem coverage_zero_or_bounded_string (obj : Option ShadowInput)
    (sc : ℕ → List SNode) (objId lightId : ℕ) :
    (obj = none → calculateShadowCoverage obj sc objId lightId = .num 0) ∧
    (∀ o, obj = some o → o.isMesh = false →
      calculateShadowCoverage obj sc objId lightId = .num 0) ∧
    (∀ o, obj = some o → o.geometry = none →
      calculateShadowCoverage obj sc objId lightId = .num 0) ∧
    (∀ o g, obj = some o → o.geometry = some g → g.position = none →
      calculateShadowCoverage obj sc objId lightId = .num 0) ∧
    (∀ o g ps, obj = some o → o.isMesh = true → o.geometry = some g →
      g.position = some ps →
      ∃ t : ℤ, calculateShadowCoverage obj sc objId lightId = .strTenths t ∧
        0 ≤ t ∧ t ≤ 1000) := by
  refine ⟨?_, ?_, ?_, ?_, ?_⟩
  · rintro rfl; rfl
  · rintro o rfl hm
    simp [calculateShadowCoverage, hm]
  · rintro o rfl hg
    rw [calculateShadowCoverage]
    split <;> simp [hg]
  · rintro o g rfl hg hp
    rw [calculateShadowCoverage]
    split <;> simp [hg, hp]
  · rintro o g ps rfl hm hg hp
    set k := (List.range 1000).countP (fun i => occludedSample (sc i) objId lightId) with hk
    refine ⟨(k : ℤ), ?_, by positivity, ?_⟩
    · have harith : ((k : ℚ) / 1000 * 100) * 10 = (k : ℚ) := by ring
      simp only [calculateShadowCoverage, hm, hg, hp, Bool.not_true, toFixed1, ← hk, harith]
      norm_num
    · have hle : k ≤ 1000 := by
        calc k ≤ (List.range 1000).length := List.countP_le_length _
        _ = 1000 := List.length_range 1000
      exact_mod_cast hle

/-! ## Greedy coplanar grouping of `getFacesWithAreas`

The grouping phase walks the triangle indices in order: an index not yet in
`usedTriangles` opens a new group and is marked used; the inner loop scans
the later indices, skipping used ones and adding (and marking) every index
the compatibility test accepts. The numeric test (normal dot product and
point-to-plane distances) enters as the `compat` argument. -/

/-- The inner scan of the grouping loop: collect, in order, the later
indices that are unused and compatible with the seed `i`, marking each as
used. Returns the collected indices and the updated used set. -/
def scanGroup (compat : ℕ → ℕ → Bool) (i : ℕ) :
    List ℕ → Finset ℕ → List ℕ × Finset ℕ
  | [], used => ([], used)
  | j :: js, used =>
    if j ∈ used then scanGroup compat i js used
    else if compat i j then
      let r := scanGroup compat i js (insert j used)
      (j :: r.1, r.2)
    else scanGroup compat i js used

/-- The outer grouping loop: each unused index seeds a group made of itself
and the compatible later indices. -/
def groupLoop (compat : ℕ → ℕ → Bool) :
    List ℕ → Finset ℕ → List (List ℕ)
  | [], _ => []
  | i :: rest, used =>
    if i ∈ used then groupLoop compat rest used
    else
      let r := scanGroup compat i rest (insert i used)
      (i :: r.1) :: groupLoop compat rest r.2

theorem scanGroup_spec (c : ℕ → ℕ → Bool) (i : ℕ) :
    ∀ (js : List ℕ) (used : Finset ℕ), js.Nodup →
      (scanGroup c i js used).1 = js.filter (fun j => !decide (j ∈ used) && c i j) ∧
      ∀ x, x ∈ (scanGroup c i js used).2 ↔ (x ∈ used ∨ x ∈ (scanGroup c i js used).1) := by
  intro js
  induction js with
  | nil => intro used _; simp [scanGroup]
  | cons j js ih =>
    intro used hnd
    rcases List.nodup_cons.mp hnd with ⟨hj, hnd'⟩
    by_cases hju : j ∈ used
    · rw [scanGroup, if_pos hju]
      rcases ih used hnd' with ⟨h1, h2⟩
      refine ⟨?_, h2⟩
      rw [h1, List.filter_cons_of_neg (by simp [hju])]
    · by_cases hc : c i j = true
      · rw [scanGroup, if_neg hju, if_pos hc]
        rcases ih (insert j used) hnd' with ⟨h1, h2⟩
        have hfc : js.filter (fun x => !decide (x ∈ insert j used) && c i x) =
            js.filter (fun x => !decide (x ∈ used) && c i x) := by
          apply List.filter_congr
          intro x hx
          have : x ≠ j := fun h => hj (h ▸ hx)
          simp [Finset.mem_insert, this]
        refine ⟨?_, ?_⟩
        · show j :: (scanGroup c i js (insert j used)).1 =
            List.filter (fun x => !decide (x ∈ used) && c i x) (j :: js)
          rw [h1, hfc, List.filter_cons_of_pos (by simp [hju, hc])]
        · intro x
          show x ∈ (scanGroup c i js (insert j used)).2 ↔
            x ∈ used ∨ x ∈ j :: (scanGroup c i js (insert j used)).1
          rw [h2 x]
          simp only [Finset.mem_insert, List.mem_cons]
          tauto
      · rw [scanGroup, if_neg hju, if_neg hc]
        rcases ih used hnd' with ⟨h1, h2⟩
        refine ⟨?_, h2⟩
        rw [h1, List.filter_cons_of_neg (by simp [hc])]

theorem filter_and_partition_perm {α : Type} (l : List α) (p q : α → Bool) :
    ((l.filter fun x => p x && q x) ++ (l.filter fun x => p x && !q x)).Perm
      (l.filter p) := by
  induction l with
  | nil => simp
  | cons a l ih =>
    by_cases hp : p a = true
    · by_cases hq : q a = true
      · rw [List.filter_cons_of_pos (by simp [hp, hq]),
          List.filter_cons_of_neg (by simp [hq]), List.filter_cons_of_pos hp]
        exact (List.cons_append a _ _).symm ▸ ih.cons a
      · rw [List.filter_cons_of_neg (by simp [hq]),
          List.filter_cons_of_pos (by simp [hp, hq]), List.filter_cons_of_pos hp]
        exact List.perm_middle.trans (ih.cons a)
    · rw [List.filter_cons_of_neg (by simp [hp]),
        List.filter_cons_of_neg (by simp [hp]), List.filter_cons_of_neg hp]
      exact ih

theorem groupLoop_flatten_perm (c : ℕ → ℕ → Bool) :
    ∀ (l : List ℕ) (used : Finset ℕ), l.Nodup →
      ((groupLoop c l used).flatten).Perm (l.filter fun i => !decide (i ∈ used)) := by
  intro l
  induction l with
  | nil => intro used _; simp [groupLoop]
  | cons i rest ih =>
    intro used hnd
    rcases List.nodup_cons.mp hnd with ⟨hi, hnd'⟩
    by_cases hiu : i ∈ used
    · rw [groupLoop, if_pos hiu, List.filter_cons_of_neg (by simp [hiu])]
      exact ih used hnd'
    · rw [groupLoop, if_neg hiu, List.filter_cons_of_pos (by simp [hiu])]
      rcases scanGroup_spec c i rest (insert i used) hnd' with ⟨h1, h2⟩
      set r := scanGroup c i rest (insert i used) with hr
      have hg : r.1 = rest.filter (fun x => !decide (x ∈ used) && c i x) := by
        rw [h1]
        apply List.filter_congr
        intro x hx
        have : x ≠ i := fun h => hi (h ▸ hx)
        simp [Finset.mem_insert, this]
      have hrest : (groupLoop c rest r.2).flatten.Perm
          (rest.filter fun x => !decide (x ∈ used) && !(c i x)) := by
        refine (ih r.2 hnd').trans ?_
        have : (rest.filter fun x => !decide (x ∈ r.2)) =
            rest.filter fun x => !decide (x ∈ used) && !(c i x) := by
          apply List.filter_congr
          intro x hx
          have hxi : x ≠ i := fun h => hi (h ▸ hx)
          have hmem : x ∈ r.2 ↔ (x ∈ used ∨ x ∈ r.1) := by
            rw [h2 x]
            simp [Finset.mem_insert, hxi]
          by_cases hxu : x ∈ used
          · simp [hmem, hxu]
          · have hxr : x ∈ r.1 ↔ c i x = true := by
              rw [hg, List.mem_filter]
              simp [hx, hxu]
            by_cases hcx : c i x = true <;> simp [hmem, hxu, hxr, hcx]
        rw [this]
      have hjoin : ((i :: r.1) :: groupLoop c rest r.2).flatten
          = i :: (r.1 ++ (groupLoop c rest r.2).flatten) := by simp
      rw [hjoin]
      refine List.Perm.cons i ?_
      refine ((List.Perm.refl r.1).append hrest).trans ?_
      rw [hg]
      exact filter_and_partition_perm rest _ _

/-! ## Delete operation (`deleteSelectedObject`)

When an object is selected and the user confirms, the object is removed
from its parent, and — unconditionally after the confirm — deleted from the
`draggableObjects` set and the `localPivotToBBoxCenterOffsets` map, and the
selection is cleared. -/

/-- The interaction state touched by `deleteSelectedObject`: the selected
node (`intersectedObject`), the ids present in the scene, the draggable set
and the pivot-offset cache keyed by node id. -/
structure UIState where
  selected : Option ℕ
  sceneIds : List ℕ
  draggables : List ℕ
  offsets : List (ℕ × Vec3Q)
deriving DecidableEq

/-- `deleteSelectedObject`: a no-op without a selection or when the user
cancels the confirm dialog; otherwise removes the node from the scene, from
the draggable set and from the pivot-offset cache, and clears the selection. -/
def deleteSelectedObject (st : UIState) (confirmed : Bool) : UIState :=
  match st.selected with
  | none => st
  | some o =>
    if confirmed then
      { selected := none
        sceneIds := st.sceneIds.filter (fun i => i ≠ o)
        draggables := st.draggables.filter (fun i => i ≠ o)
        offsets := st.offsets.filter (fun p => p.1 ≠ o) }
    else st

/-- C10: whenever `deleteSelectedObject` confirms and removes the selected
object, the resulting draggable set and pivot-offset cache hold no entry for
the deleted node. -/
theorem delete_clears_draggable_and_offset (st : UIState) (o : ℕ)
    (hsel : st.selected = some o) :
    (deleteSelectedObject st true).draggables = st.draggables.filter (fun i => i ≠ o) ∧
    (deleteSelectedObject st true).offsets = st.offsets.filter (fun p => p.1 ≠ o) ∧
    o ∉ (deleteSelectedObject st true).draggables ∧
    ∀ p ∈ (deleteSelectedObject st true).offsets, p.1 ≠ o := by
  simp only [deleteSelectedObject, hsel]
  refine ⟨rfl, rfl, ?_, ?_⟩
  · intro hmem
    rcases List.mem_filter.mp hmem with ⟨-, hne⟩
    simp at hne
  · intro p hp
    rcases List.mem_filter.mp hp with ⟨-, hne⟩
    simpa using hne

/-- C10 witness: the theorem instantiated at a concrete state in which node 7
is selected, draggable and cached. -/
theorem delete_clears_draggable_and_offset_witness :
    ({ selected := some 7, sceneIds := [7, 8], draggables := [7, 8],
       offsets := [(7, ⟨1, 2, 3⟩), (8, ⟨0, 0, 0⟩)] } : UIState).selected = some 7 ∧
    (7 : ℕ) ∉ (deleteSelectedObject
      { selected := some 7, sceneIds := [7, 8], draggables := [7, 8],
        offsets := [(7, ⟨1, 2, 3⟩), (8, ⟨0, 0, 0⟩)] } true).draggables :=
  ⟨rfl, (delete_clears_draggable_and_offset
    { selected := some 7, sceneIds := [7, 8], draggables := [7, 8],
      offsets := [(7, ⟨1, 2, 3⟩), (8, ⟨0, 0, 0⟩)] } 7 rfl).2.2.1⟩

/-! ## Real 3-vectors

The parts of the code that normalize vectors (`Vector3.normalize`) are
embedded over `ℝ` with `Real.sqrt`. `normalize` follows three.js:
`divideScalar(length() || 1)`, so the zero vector stays zero. -/

/-- A 3-vector with real components. -/
@[ext]
structure Vec3R where
  x : ℝ
  y : ℝ
  z : ℝ

def addV (a b : Vec3R) : Vec3R := ⟨a.x + b.x, a.y + b.y, a.z + b.z⟩

def subV (a b : Vec3R) : Vec3R := ⟨a.x - b.x, a.y - b.y, a.z - b.z⟩

def negV (a : Vec3R) : Vec3R := ⟨-a.x, -a.y, -a.z⟩

def smulV (c : ℝ) (a : Vec3R) : Vec3R := ⟨c * a.x, c * a.y, c * a.z⟩

def dotV (a b : Vec3R) : ℝ := a.x * b.x + a.y * b.y + a.z * b.z

def crossV (a b : Vec3R) : Vec3R :=
  ⟨a.y * b.z - a.z * b.y, a.z * b.x - a.x * b.z, a.x * b.y - a.y * b.x⟩

def lengthSqV (a : Vec3R) : ℝ := a.x * a.x + a.y * a.y + a.z * a.z

noncomputable def lengthV (a : Vec3R) : ℝ := Real.sqrt (lengthSqV a)

def zeroV : Vec3R := ⟨0, 0, 0⟩

open Classical in
/-- `Vector3.normalize`: divide by the length, or by 1 when the length is 0. -/
noncomputable def normalizeV (v : Vec3R) : Vec3R :=
  smulV (1 / (if lengthV v = 0 then 1 else lengthV v)) v

theorem lengthSqV_neg (v : Vec3R) : lengthSqV (negV v) = lengthSqV v := by
  simp only [lengthSqV, negV]; ring

theorem lengthV_neg (v : Vec3R) : lengthV (negV v) = lengthV v := by
  rw [lengthV, lengthV, lengthSqV_neg]

theorem normalizeV_neg (v : Vec3R) : normalizeV (negV v) = negV (normalizeV v) := by
  rw [normalizeV, normalizeV, lengthV_neg]
  ext <;> simp [smulV, negV]

theorem subV_antisymm (a b : Vec3R) : subV a b = negV (subV b a) := by
  ext <;> simp [subV, negV]

/-! ## Shadow ray setup of `calculateShadowCoverage` (C3)

`lightDirection` is `subVectors(directionalLight.target.position,
directionalLight.position).normalize()`; each sample's ray starts at the
surface point offset by `0.005` along the negated light direction and is
cast toward the negated light direction. -/

/-- The light direction the code computes: target position minus light
position, normalized. -/
noncomputable def calcLightDirection (lightPos targetPos : Vec3R) : Vec3R :=
  normalizeV (subV targetPos lightPos)

/-- Modelled from the spec: the light direction as §4.4 words it, "light
position minus light target, normalized" — kept separate so it can be
compared with the code's `calcLightDirection`. -/
noncomputable def specLightDirection (lightPos targetPos : Vec3R) : Vec3R :=
  normalizeV (subV lightPos targetPos)

/-- `rayOrigin = pointOnTriangle + 0.005 · (−lightDirection)`. -/
noncomputable def shadowRayOrigin (p lightDir : Vec3R) : Vec3R :=
  addV p (smulV 0.005 (negV lightDir))

/-- The sample ray's direction: the negated light direction. -/
def shadowRayDirection (lightDir : Vec3R) : Vec3R := negV lightDir

/-- C3 counterexample: with the light at the origin and its target at
(0,0,1), the code's light direction is (0,0,1) while the claim's "light
position minus target position, normalized" is (0,0,−1): the two differ. -/
theorem light_direction_sign_cex :
    calcLightDirection ⟨0, 0, 0⟩ ⟨0, 0, 1⟩ ≠ specLightDirection ⟨0, 0, 0⟩ ⟨0, 0, 1⟩ := by
  intro h
  have hz := congrArg Vec3R.z h
  simp only [calcLightDirection, specLightDirection, normalizeV, subV, smulV,
    lengthV, lengthSqV] at hz
  norm_num [Real.sqrt_one] at hz

/-- C3 (amended): the light direction used is the light's TARGET position
minus the light's position, normalized (the claim has the two reversed);
the sample ray's origin is the surface point offset by 0.005 along the
negated light direction, and the ray is cast toward the negated light
direction — which indeed equals `normalize(lightPos − targetPos)` and so
points toward the light. -/
theorem shadow_ray_toward_light (lightPos targetPos p : Vec3R) :
    negV (calcLightDirection lightPos targetPos) = specLightDirection lightPos targetPos ∧
    shadowRayOrigin p (calcLightDirection lightPos targetPos) =
      addV p (smulV 0.005 (specLightDirection lightPos targetPos)) ∧
    shadowRayDirection (calcLightDirection lightPos targetPos) =
      specLightDirection lightPos targetPos := by
  have h1 : negV (calcLightDirection lightPos targetPos) =
      specLightDirection lightPos targetPos := by
    rw [specLightDirection, subV_antisymm lightPos targetPos, normalizeV_neg]
    rfl
  exact ⟨h1, by rw [shadowRayOrigin, h1], by rw [shadowRayDirection, h1]⟩

/-! ## Panel Validator & Constructor (`addObjectToScene`, C4 and C7)

The four points arrive already expressed in the baseline frame (the code
applies the inverse of `baseModelContainer.matrixWorld` before any check).
The three checks run in order: collinear first triple, off-plane fourth
point (with corrective suggestion), degenerate alternate triangle; only
then is the two-triangle quad mesh built and registered. -/

/-- The outcome of a call to `addObjectToScene` past the numeric parse. -/
inductive PanelOutcome : Type where
  | invalidCollinear
  | invalidOffPlane (suggested : Vec3R)
  | invalidDegenerate
  | ok (positions : List Vec3R) (indices : List ℕ)

open Classical in
/-- The validation and mesh-construction core of `addObjectToScene`. -/
noncomputable def validateAddPanel (p1 p2 p3 p4 : Vec3R) : PanelOutcome :=
  let v12 := subV p2 p1
  let v13 := subV p3 p1
  let normal := normalizeV (crossV v12 v13)
  if lengthSqV (crossV v12 v13) < 0.0001 then .invalidCollinear
  else
    let d := dotV (subV p4 p1) normal
    if 0.01 < |d| then .invalidOffPlane (subV p4 (smulV d normal))
    else
      if lengthSqV (crossV v13 (subV p4 p1)) < 0.0001 ∨
          lengthSqV (crossV v12 (subV p4 p1)) < 0.0001 ∨
          lengthSqV (crossV (subV p3 p2) (subV p4 p2)) < 0.0001 then
        .invalidDegenerate
      else .ok [p1, p2, p3, p4] [0, 1, 2, 0, 2, 3]

/-- Whether the outcome is one of the three rejections. -/
def panelRejected : PanelOutcome → Bool
  | .ok _ _ => false
  | _ => true

/-- The state `addObjectToScene` mutates on success: the meshes under the
model container (positions, indices, `is2DPanel` flag), the draggable set
and the pivot-offset cache, keyed by id. -/
structure PanelScene where
  meshes : List (List Vec3R × List ℕ × Bool)
  draggables : List ℕ
  offsets : List (ℕ × Vec3R)
  nextId : ℕ

/-- `addObjectToScene` as a state transition: every rejection returns before
any mesh is created; on success the quad mesh is added to the container, the
new panel joins the draggable set and its pivot offset is cached. (The
cached offset's numeric value is the Transform Engine's
`calculateAndStoreLocalBBoxOffset`, embedded in its own section; for the
claims about this transition only the cache's keys matter.) -/
noncomputable def addObjectToScene (st : PanelScene) (p1 p2 p3 p4 : Vec3R) : PanelScene :=
  match validateAddPanel p1 p2 p3 p4 with
  | .ok pos idx =>
    { meshes := st.meshes ++ [(pos, idx, true)]
      draggables := st.draggables ++ [st.nextId]
      offsets := st.offsets ++ [(st.nextId, zeroV)]
      nextId := st.nextId + 1 }
  | _ => st

/-- C7: when any of the three validation checks fails, `addObjectToScene`
returns before creating a mesh: the scene meshes, the draggable set and the
pivot-offset cache are all left unchanged. -/
theorem panel_failure_leaves_state_unchanged (st : PanelScene) (p1 p2 p3 p4 : Vec3R)
    (h : panelRejected (validateAddPanel p1 p2 p3 p4) = true) :
    (addObjectToScene st p1 p2 p3 p4).meshes = st.meshes ∧
    (addObjectToScene st p1 p2 p3 p4).draggables = st.draggables ∧
    (addObjectToScene st p1 p2 p3 p4).offsets = st.offsets ∧
    addObjectToScene st p1 p2 p3 p4 = st := by
  cases hv : validateAddPanel p1 p2 p3 p4 with
  | ok pos idx => rw [hv] at h; simp [panelRejected] at h
  | invalidCollinear => simp [addObjectToScene, hv]
  | invalidOffPlane s => simp [addObjectToScene, hv]
  | invalidDegenerate => simp [addObjectToScene, hv]

/-- C7 witness: the spec's collinear triple (0,0,0), (0,0,0.001),
(0,0,0.002) is rejected, and the call leaves a concrete state unchanged. -/
theorem panel_failure_leaves_state_unchanged_witness :
    panelRejected (validateAddPanel ⟨0, 0, 0⟩ ⟨0, 0, 1/1000⟩ ⟨0, 0, 1/500⟩ ⟨1, 0, 0⟩) = true ∧
    addObjectToScene ⟨[], [3], [(3, zeroV)], 4⟩
      ⟨0, 0, 0⟩ ⟨0, 0, 1/1000⟩ ⟨0, 0, 1/500⟩ ⟨1, 0, 0⟩ = (⟨[], [3], [(3, zeroV)], 4⟩ : PanelScene) := by
  have hrej : panelRejected (validateAddPanel ⟨0, 0, 0⟩ ⟨0, 0, 1/1000⟩ ⟨0, 0, 1/500⟩ ⟨1, 0, 0⟩) = true := by
    rw [validateAddPanel, if_pos (by norm_num [lengthSqV, crossV, subV])]
    rfl
  exact ⟨hrej, (panel_failure_leaves_state_unchanged ⟨[], [3], [(3, zeroV)], 4⟩
    ⟨0, 0, 0⟩ ⟨0, 0, 1/1000⟩ ⟨0, 0, 1/500⟩ ⟨1, 0, 0⟩ hrej).2.2.2⟩

/-- C4 counterexample: with the non-collinear base (0,0,0), (1,0,0), (1,1,0)
and fourth point equal to the first, the fourth point's plane distance is 0
(within the 0.01 epsilon), yet the input IS rejected — by the alternate-
triangle degeneracy check — so "rejects iff |distance| > 0.01" fails. -/
theorem panel_offplane_iff_cex :
    validateAddPanel ⟨0, 0, 0⟩ ⟨1, 0, 0⟩ ⟨1, 1, 0⟩ ⟨0, 0, 0⟩ = .invalidDegenerate ∧
    ¬ (lengthSqV (crossV (subV ⟨1, 0, 0⟩ ⟨0, 0, 0⟩) (subV ⟨1, 1, 0⟩ ⟨0, 0, 0⟩)) < 0.0001) ∧
    |dotV (subV ⟨0, 0, 0⟩ ⟨0, 0, 0⟩)
        (normalizeV (crossV (subV ⟨1, 0, 0⟩ ⟨0, 0, 0⟩) (subV ⟨1, 1, 0⟩ ⟨0, 0, 0⟩)))| ≤ 0.01 := by
  have hd : dotV (subV ⟨0, 0, 0⟩ ⟨0, 0, 0⟩)
      (normalizeV (crossV (subV ⟨1, 0, 0⟩ ⟨0, 0, 0⟩) (subV ⟨1, 1, 0⟩ ⟨0, 0, 0⟩))) = 0 := by
    simp [dotV, subV]
  refine ⟨?_, by norm_num [lengthSqV, crossV, subV], by rw [hd]; norm_num⟩
  rw [validateAddPanel, if_neg (by norm_num [lengthSqV, crossV, subV]), if_neg (by rw [hd]; norm_num),
    if_pos]
  left
  norm_num [lengthSqV, crossV, subV]

/-- C4 (amended): provided the first triple passes the code's collinearity
threshold, the input is rejected AT THE OFF-PLANE CHECK iff
|dot(p4−p1, normal)| exceeds 0.01, and on that rejection the reported
suggestion is the projection `p4 − normal·distance`; inputs with
|distance| ≤ 0.01 can still be rejected by the later alternate-triangle
check. For the spec's example the call rejects with suggestion (0,1,0). -/
theorem panel_offplane_iff :
    (∀ p1 p2 p3 p4 : Vec3R,
      ¬ (lengthSqV (crossV (subV p2 p1) (subV p3 p1)) < 0.0001) →
      ((∃ s, validateAddPanel p1 p2 p3 p4 = .invalidOffPlane s) ↔
        0.01 < |dotV (subV p4 p1) (normalizeV (crossV (subV p2 p1) (subV p3 p1)))|) ∧
      (∀ s, validateAddPanel p1 p2 p3 p4 = .invalidOffPlane s →
        s = subV p4 (smulV
          (dotV (subV p4 p1) (normalizeV (crossV (subV p2 p1) (subV p3 p1))))
          (normalizeV (crossV (subV p2 p1) (subV p3 p1)))))) ∧
    validateAddPanel ⟨0, 0, 0⟩ ⟨1, 0, 0⟩ ⟨1, 1, 0⟩ ⟨0, 1, 5⟩ = .invalidOffPlane ⟨0, 1, 0⟩ := by
  constructor
  · intro p1 p2 p3 p4 h1
    rw [validateAddPanel, if_neg h1]
    by_cases hd : 0.01 <
        |dotV (subV p4 p1) (normalizeV (crossV (subV p2 p1) (subV p3 p1)))|
    · rw [if_pos hd]
      refine ⟨⟨fun _ => hd, fun _ => ⟨_, rfl⟩⟩, ?_⟩
      intro s hs
      cases hs
      rfl
    · rw [if_neg hd]
      constructor
      · constructor
        · rintro ⟨s, hs⟩
          split at hs <;> cases hs
        · intro h
          exact absurd h hd
      · intro s hs
        split at hs <;> cases hs
  · have hcross : crossV (subV ⟨1, 0, 0⟩ ⟨0, 0, 0⟩) (subV ⟨1, 1, 0⟩ ⟨0, 0, 0⟩) =
        (⟨0, 0, 1⟩ : Vec3R) := by
      ext <;> norm_num [crossV, subV]
    have hn : normalizeV (⟨0, 0, 1⟩ : Vec3R) = ⟨0, 0, 1⟩ := by
      rw [normalizeV]
      have hl : lengthV (⟨0, 0, 1⟩ : Vec3R) = 1 := by
        rw [lengthV]
        norm_num [lengthSqV, Real.sqrt_one]
      rw [hl, if_neg (by norm_num)]
      ext <;> norm_num [smulV]
    have hd : dotV (subV ⟨0, 1, 5⟩ ⟨0, 0, 0⟩) (⟨0, 0, 1⟩ : Vec3R) = 5 := by
      norm_num [dotV, subV]
    rw [validateAddPanel]
    rw [if_neg (by norm_num [lengthSqV, crossV, subV])]
    rw [hcross, hn, hd, if_pos (by norm_num)]
    congr 1
    ext <;> norm_num [subV, smulV]

/-! ## Pivot-Offset Transform Engine (C5)

`calculateAndStoreLocalBBoxOffset` caches the vector from the node's world
pivot to its world bbox center, rotated into the node's local frame by the
inverse world quaternion. `onCoordInputChange` rotates the cached offset by
the current world orientation, subtracts it from the desired world
bbox-center, maps the result through the inverse of the parent's world
matrix and assigns it as the node's local position. The hierarchy is
modelled as in the claim: a parent whose world transform is a rotation plus
a translation (no scale), and the node's own rotation and position under
it; `getWorldQuaternion` of such a hierarchy is the quaternion product. -/

/-- A quaternion with the (x, y, z, w) layout of `THREE.Quaternion`. -/
structure QuatR where
  x : ℝ
  y : ℝ
  z : ℝ
  w : ℝ

def quatNormSq (q : QuatR) : ℝ := q.x * q.x + q.y * q.y + q.z * q.z + q.w * q.w

/-- `Quaternion.invert` (the conjugate; the inverse of a unit quaternion). -/
def quatConj (q : QuatR) : QuatR := ⟨-q.x, -q.y, -q.z, q.w⟩

/-- `Quaternion.multiplyQuaternions`. -/
def quatMul (a b : QuatR) : QuatR :=
  ⟨a.x * b.w + a.w * b.x + a.y * b.z - a.z * b.y,
   a.y * b.w + a.w * b.y + a.z * b.x - a.x * b.z,
   a.z * b.w + a.w * b.z + a.x * b.y - a.y * b.x,
   a.w * b.w - a.x * b.x - a.y * b.y - a.z * b.z⟩

/-- `Vector3.applyQuaternion`: `t = 2 (q.xyz × v)`, result
`v + q.w t + q.xyz × t`. -/
def applyQuat (q : QuatR) (v : Vec3R) : Vec3R :=
  let tx := 2 * (q.y * v.z - q.z * v.y)
  let ty := 2 * (q.z * v.x - q.x * v.z)
  let tz := 2 * (q.x * v.y - q.y * v.x)
  ⟨v.x + q.w * tx + q.y * tz - q.z * ty,
   v.y + q.w * ty + q.z * tx - q.x * tz,
   v.z + q.w * tz + q.x * ty - q.y * tx⟩

theorem quatNormSq_mul (a b : QuatR) :
    quatNormSq (quatMul a b) = quatNormSq a * quatNormSq b := by
  simp only [quatNormSq, quatMul]
  ring

theorem applyQuat_add (q : QuatR) (a b : Vec3R) :
    applyQuat q (addV a b) = addV (applyQuat q a) (applyQuat q b) := by
  ext <;> simp only [applyQuat, addV] <;> ring

/-- Rotating by the conjugate and then by the quaternion is the identity for
a unit quaternion. -/
theorem applyQuat_conj_cancel (q : QuatR) (v : Vec3R) (h : quatNormSq q = 1) :
    applyQuat q (applyQuat (quatConj q) v) = v := by
  rw [quatNormSq] at h
  ext
  · show _ = v.x
    simp only [applyQuat, quatConj]
    linear_combination (4 * (q.x * q.x + q.y * q.y + q.z * q.z) * v.x -
      4 * (q.x * v.x + q.y * v.y + q.z * v.z) * q.x) * h
  · show _ = v.y
    simp only [applyQuat, quatConj]
    linear_combination (4 * (q.x * q.x + q.y * q.y + q.z * q.z) * v.y -
      4 * (q.x * v.x + q.y * v.y + q.z * v.z) * q.y) * h
  · show _ = v.z
    simp only [applyQuat, quatConj]
    linear_combination (4 * (q.x * q.x + q.y * q.y + q.z * q.z) * v.z -
      4 * (q.x * v.x + q.y * v.y + q.z * v.z) * q.z) * h

/-- A draggable node in the claim's hierarchy: a parent with world rotation
`parentQuat` and world translation `parentPos` (no scale), the node's local
rotation and position under it, and the node's mesh vertices in the node's
local space. -/
structure DragNode where
  parentQuat : QuatR
  parentPos : Vec3R
  localQuat : QuatR
  localPos : Vec3R
  verts : List Vec3R

/-- `getWorldQuaternion` of the scale-free hierarchy. -/
def worldQuat (n : DragNode) : QuatR := quatMul n.parentQuat n.localQuat

/-- `getWorldPosition`: the translation part of the node's world matrix. -/
def worldPosOf (n : DragNode) : Vec3R :=
  addV (applyQuat n.parentQuat n.localPos) n.parentPos

/-- The node's vertices in world space as `Box3.setFromObject(object, true)`
sees them: each local vertex through the node's world matrix. -/
def worldVerts (n : DragNode) : List Vec3R :=
  n.verts.map (fun v =>
    addV (applyQuat n.parentQuat (addV (applyQuat n.localQuat v) n.localPos)) n.parentPos)

def listMin : List ℝ → ℝ
  | [] => 0
  | a :: l => l.foldl min a

def listMax : List ℝ → ℝ
  | [] => 0
  | a :: l => l.foldl max a

/-- `Box3.getCenter` of the axis-aligned box of a vertex list. -/
noncomputable def bboxCenterOf (l : List Vec3R) : Vec3R :=
  ⟨(listMin (l.map Vec3R.x) + listMax (l.map Vec3R.x)) / 2,
   (listMin (l.map Vec3R.y) + listMax (l.map Vec3R.y)) / 2,
   (listMin (l.map Vec3R.z) + listMax (l.map Vec3R.z)) / 2⟩

/-- `calculateAndStoreLocalBBoxOffset`: the world vector from the pivot to
the bbox center, rotated by the inverse world quaternion. -/
noncomputable def localBBoxOffset (n : DragNode) : Vec3R :=
  applyQuat (quatConj (worldQuat n)) (subV (bboxCenterOf (worldVerts n)) (worldPosOf n))

/-- The set-position operation of `onCoordInputChange`: rotate the cached
offset by the current world orientation, subtract from the desired world
bbox-center, map through the inverse of the parent's world matrix
(`x ↦ parentQuat⁻¹ · (x − parentPos)` for the scale-free parent) and assign
as the node's local position. -/
noncomputable def setBBoxCenter (n : DragNode) (P : Vec3R) : DragNode :=
  let localOffset := localBBoxOffset n
  let worldOffset := applyQuat (worldQuat n) localOffset
  let desiredPivot := subV P worldOffset
  { n with localPos := applyQuat (quatConj n.parentQuat) (subV desiredPivot n.parentPos) }

theorem foldl_min_map_add (c : ℝ) :
    ∀ (t : List ℝ) (a : ℝ), (t.map (fun x => x + c)).foldl min (a + c) = t.foldl min a + c := by
  intro t
  induction t with
  | nil => intro a; rfl
  | cons b t ih =>
    intro a
    have hmin : min (a + c) (b + c) = min a b + c := by
      rcases le_total a b with hab | hab
      · rw [min_eq_left hab, min_eq_left (by linarith)]
      · rw [min_eq_right hab, min_eq_right (by linarith)]
    simp only [List.map_cons, List.foldl_cons, hmin, ih]

theorem foldl_max_map_add (c : ℝ) :
    ∀ (t : List ℝ) (a : ℝ), (t.map (fun x => x + c)).foldl max (a + c) = t.foldl max a + c := by
  intro t
  induction t with
  | nil => intro a; rfl
  | cons b t ih =>
    intro a
    have hmax : max (a + c) (b + c) = max a b + c := by
      rcases le_total a b with hab | hab
      · rw [max_eq_right hab, max_eq_right (by linarith)]
      · rw [max_eq_left hab, max_eq_left (by linarith)]
    simp only [List.map_cons, List.foldl_cons, hmax, ih]

theorem listMin_map_add (l : List ℝ) (c : ℝ) (h : l ≠ []) :
    listMin (l.map (fun x => x + c)) = listMin l + c := by
  cases l with
  | nil => exact absurd rfl h
  | cons a t => simp only [List.map_cons, listMin, foldl_min_map_add]

theorem listMax_map_add (l : List ℝ) (c : ℝ) (h : l ≠ []) :
    listMax (l.map (fun x => x + c)) = listMax l + c := by
  cases l with
  | nil => exact absurd rfl h
  | cons a t => simp only [List.map_cons, listMax, foldl_max_map_add]

/-- Translating every vertex translates the bbox center. -/
theorem bboxCenterOf_map_add (l : List Vec3R) (d : Vec3R) (h : l ≠ []) :
    bboxCenterOf (l.map (fun v => addV v d)) = addV (bboxCenterOf l) d := by
  have hx : (l.map (fun v => addV v d)).map Vec3R.x = (l.map Vec3R.x).map (fun x => x + d.x) := by
    simp only [List.map_map]
    exact List.map_congr_left fun a _ => rfl
  have hy : (l.map (fun v => addV v d)).map Vec3R.y = (l.map Vec3R.y).map (fun x => x + d.y) := by
    simp only [List.map_map]
    exact List.map_congr_left fun a _ => rfl
  have hz : (l.map (fun v => addV v d)).map Vec3R.z = (l.map Vec3R.z).map (fun x => x + d.z) := by
    simp only [List.map_map]
    exact List.map_congr_left fun a _ => rfl
  have hne : ∀ f : Vec3R → ℝ, l.map f ≠ [] := by
    intro f hnil
    exact h (List.map_eq_nil_iff.mp hnil)
  ext
  · show (listMin ((l.map (fun v => addV v d)).map Vec3R.x) +
        listMax ((l.map (fun v => addV v d)).map Vec3R.x)) / 2 =
      (listMin (l.map Vec3R.x) + listMax (l.map Vec3R.x)) / 2 + d.x
    rw [hx, listMin_map_add _ _ (hne _), listMax_map_add _ _ (hne _)]
    ring
  · show (listMin ((l.map (fun v => addV v d)).map Vec3R.y) +
        listMax ((l.map (fun v => addV v d)).map Vec3R.y)) / 2 =
      (listMin (l.map Vec3R.y) + listMax (l.map Vec3R.y)) / 2 + d.y
    rw [hy, listMin_map_add _ _ (hne _), listMax_map_add _ _ (hne _)]
    ring
  · show (listMin ((l.map (fun v => addV v d)).map Vec3R.z) +
        listMax ((l.map (fun v => addV v d)).map Vec3R.z)) / 2 =
      (listMin (l.map Vec3R.z) + listMax (l.map Vec3R.z)) / 2 + d.z
    rw [hz, listMin_map_add _ _ (hne _), listMax_map_add _ _ (hne _)]
    ring

/-- C5: setting the bbox-center to a world point `P` through the set-position
operation and immediately reading the bbox-center back yields `P` — exactly,
in exact arithmetic, for arbitrary node orientation and non-identity parent
rotation, hence in particular within the claimed 1e-3 absolute tolerance. -/
theorem set_position_roundtrip (n : DragNode) (P : Vec3R)
    (hp : quatNormSq n.parentQuat = 1) (hl : quatNormSq n.localQuat = 1)
    (hv : n.verts ≠ []) :
    bboxCenterOf (worldVerts (setBBoxCenter n P)) = P ∧
    |(bboxCenterOf (worldVerts (setBBoxCenter n P))).x - P.x| ≤ 0.001 ∧
    |(bboxCenterOf (worldVerts (setBBoxCenter n P))).y - P.y| ≤ 0.001 ∧
    |(bboxCenterOf (worldVerts (setBBoxCenter n P))).z - P.z| ≤ 0.001 := by
  have hw : quatNormSq (worldQuat n) = 1 := by
    rw [worldQuat, quatNormSq_mul, hp, hl, mul_one]
  have hoff : applyQuat (worldQuat n) (localBBoxOffset n) =
      subV (bboxCenterOf (worldVerts n)) (worldPosOf n) := by
    rw [localBBoxOffset]
    exact applyQuat_conj_cancel _ _ hw
  have hlocal : applyQuat n.parentQuat (setBBoxCenter n P).localPos =
      subV (subV P (applyQuat (worldQuat n) (localBBoxOffset n))) n.parentPos :=
    applyQuat_conj_cancel _ _ hp
  have hwvne : worldVerts n ≠ [] := by
    intro hnil
    exact hv (List.map_eq_nil_iff.mp hnil)
  have hmain : bboxCenterOf (worldVerts (setBBoxCenter n P)) = P := by
    have hlist : worldVerts (setBBoxCenter n P) =
        (worldVerts n).map
          (fun v => addV v (subV P (bboxCenterOf (worldVerts n)))) := by
      set c := bboxCenterOf (worldVerts n) with hc
      set w := worldPosOf n with hwdef
      rw [worldVerts, worldVerts, List.map_map]
      have hverts : (setBBoxCenter n P).verts = n.verts := rfl
      rw [hverts]
      apply List.map_congr_left
      intro v hvmem
      simp only [Function.comp_apply]
      have hq : (setBBoxCenter n P).localQuat = n.localQuat := rfl
      have hpp : (setBBoxCenter n P).parentPos = n.parentPos := rfl
      have hpq : (setBBoxCenter n P).parentQuat = n.parentQuat := rfl
      rw [hq, hpp, hpq]
      simp only [applyQuat_add]
      rw [hlocal, hoff, hwdef]
      simp only [worldPosOf]
      ext <;> simp only [addV, subV] <;> ring
    rw [hlist, bboxCenterOf_map_add _ _ hwvne]
    ext <;> simp only [addV, subV] <;> ring
  refine ⟨hmain, ?_, ?_, ?_⟩ <;> rw [hmain] <;> norm_num

/-- C5 witness: a concrete node with a non-identity parent rotation and a
non-identity local rotation round-trips a concrete target point exactly. -/
theorem set_position_roundtrip_witness :
    quatNormSq ⟨3/5, 0, 0, 4/5⟩ = 1 ∧ quatNormSq ⟨0, 3/5, 0, 4/5⟩ = 1 ∧
    ([⟨0, 0, 0⟩, ⟨1, 1, 1⟩] : List Vec3R) ≠ [] ∧
    bboxCenterOf (worldVerts (setBBoxCenter
      ⟨⟨3/5, 0, 0, 4/5⟩, ⟨1, 2, 3⟩, ⟨0, 3/5, 0, 4/5⟩, ⟨4, 5, 6⟩, [⟨0, 0, 0⟩, ⟨1, 1, 1⟩]⟩
      ⟨7, 8, 9⟩)) = ⟨7, 8, 9⟩ :=
  ⟨by norm_num [quatNormSq], by norm_num [quatNormSq], by simp,
   (set_position_roundtrip
      ⟨⟨3/5, 0, 0, 4/5⟩, ⟨1, 2, 3⟩, ⟨0, 3/5, 0, 4/5⟩, ⟨4, 5, 6⟩, [⟨0, 0, 0⟩, ⟨1, 1, 1⟩]⟩
      ⟨7, 8, 9⟩ (by norm_num [quatNormSq]) (by norm_num [quatNormSq]) (by simp)).1⟩

/-! ## Coplanar Face Merger & Polygon Extractor (`getFacesWithAreas`,
`calculatePolygonArea`; C6 and C9)

The mesh's triangles (indexed or not) are transformed to world space, the
greedy grouping of the section above runs with the real compatibility test
(normal dot product above `1 − 0.01` and all three vertices within `0.01`
of the seed plane), each group's vertices are deduplicated with 4-decimal
fixed keys, ordered by angle around their centroid and fed to the shoelace
area. -/

/-- A triangle in world space. -/
structure TriR where
  a : Vec3R
  b : Vec3R
  c : Vec3R

/-- The degenerate placeholder triangle for out-of-range list access. -/
def degTri : TriR := ⟨zeroV, zeroV, zeroV⟩

/-- `THREE.Triangle.getNormal`: `normalize((c − b) × (a − b))` (the zero
vector when the cross product vanishes). -/
noncomputable def triNormal (t : TriR) : Vec3R :=
  normalizeV (crossV (subV t.c t.b) (subV t.a t.b))

/-- `THREE.Plane.setFromCoplanarPoints(a, b, c)`: the unit normal. -/
noncomputable def planeNormal (a b c : Vec3R) : Vec3R :=
  normalizeV (crossV (subV c b) (subV a b))

/-- The plane's constant: `−(normal · a)`. -/
noncomputable def planeConstant (a b c : Vec3R) : ℝ :=
  -(dotV (planeNormal a b c) a)

/-- `Plane.distanceToPoint`: `normal · p + constant`. -/
noncomputable def planeDist (a b c p : Vec3R) : ℝ :=
  dotV (planeNormal a b c) p + planeConstant a b c

/-- An affine world matrix (`matrixWorld`): images of the three axes plus
the translation. -/
structure AffR where
  c0 : Vec3R
  c1 : Vec3R
  c2 : Vec3R
  t : Vec3R

def applyAff (m : AffR) (v : Vec3R) : Vec3R :=
  addV (addV (addV (smulV v.x m.c0) (smulV v.y m.c1)) (smulV v.z m.c2)) m.t

def idAff : AffR := ⟨⟨1, 0, 0⟩, ⟨0, 1, 0⟩, ⟨0, 0, 1⟩, ⟨0, 0, 0⟩⟩

theorem applyAff_id (v : Vec3R) : applyAff idAff v = v := by
  ext <;> simp [applyAff, idAff, addV, smulV]

/-- The mesh-bearing object as `getFacesWithAreas` reads it: the position
attribute, the optional index attribute and the world matrix. -/
structure FaceObj where
  positions : List Vec3R
  index : Option (List ℕ)
  world : AffR

/-- Consecutive triples of a list (the `i, i+1, i+2` triangle walk). -/
def chunk3 {α : Type} : List α → List (α × α × α)
  | a :: b :: c :: rest => (a, b, c) :: chunk3 rest
  | _ => []

/-- The world-space triangle list of the object: indexed triangles read the
position attribute through the index, otherwise consecutive vertex triples;
every vertex goes through `matrixWorld`. -/
def trianglesOf (o : FaceObj) : List TriR :=
  match o.index with
  | some idx =>
    (chunk3 idx).map (fun t =>
      ⟨applyAff o.world (o.positions.getD t.1 zeroV),
       applyAff o.world (o.positions.getD t.2.1 zeroV),
       applyAff o.world (o.positions.getD t.2.2 zeroV)⟩)
  | none =>
    (chunk3 o.positions).map (fun t =>
      ⟨applyAff o.world t.1, applyAff o.world t.2.1, applyAff o.world t.2.2⟩)

open Classical in
/-- The grouping compatibility test of `getFacesWithAreas` with
`coplanarTolerance = 0.01`: the seed triangle `i`'s normal dotted with
triangle `j`'s normal exceeds `1 − 0.01`, and all three of `j`'s vertices
are within `0.01` of the seed's plane. -/
noncomputable def triCompat (ts : List TriR) (i j : ℕ) : Bool :=
  let ti := ts.getD i degTri
  let tj := ts.getD j degTri
  decide ((1 - 0.01 : ℝ) < dotV (triNormal ti) (triNormal tj) ∧
    |planeDist ti.a ti.b ti.c tj.a| ≤ 0.01 ∧
    |planeDist ti.a ti.b ti.c tj.b| ≤ 0.01 ∧
    |planeDist ti.a ti.b ti.c tj.c| ≤ 0.01)

/-- `v.x.toFixed(4)` as the rounded integer number of ten-thousandths. (The
claims that depend on the dedup keys state their distinctness or equality
explicitly, so `toFixed`'s exact tie behaviour is immaterial.) -/
noncomputable def roundFix4 (x : ℝ) : ℤ := ⌊x * 10000 + 1 / 2⌋

/-- The dedup key `` `${x.toFixed(4)},${y.toFixed(4)},${z.toFixed(4)}` ``. -/
noncomputable def keyOf (v : Vec3R) : ℤ × ℤ × ℤ :=
  (roundFix4 v.x, roundFix4 v.y, roundFix4 v.z)

/-- One `faceVerticesMap.set(key, v)`: a fresh key is appended (insertion
order), an existing key keeps its place and takes the new value. -/
noncomputable def insertKV (acc : List ((ℤ × ℤ × ℤ) × Vec3R)) (v : Vec3R) :
    List ((ℤ × ℤ × ℤ) × Vec3R) :=
  if acc.any (fun p => p.1 = keyOf v) then
    acc.map (fun p => if p.1 = keyOf v then (p.1, v) else p)
  else acc ++ [(keyOf v, v)]

/-- `Array.from(faceVerticesMap.values())`. -/
noncomputable def dedupVerts (vs : List Vec3R) : List Vec3R :=
  (vs.foldl insertKV []).map Prod.snd

/-- `Vector3.projectOnPlane(n)`; `v − n · (v·n / n·n)` (with the
division-by-zero conventions of three.js and of `ℝ` agreeing on `0`). -/
noncomputable def projectOnPlane (v n : Vec3R) : Vec3R :=
  subV v (smulV (dotV n v / dotV n n) n)

open Classical in
/-- The first in-plane basis vector: the world axis least aligned with the
normal, projected onto the plane and normalized. -/
noncomputable def basisXOf (n : Vec3R) : Vec3R :=
  if |n.x| < 0.9 ∧ |n.y| < 0.9 then normalizeV (projectOnPlane ⟨1, 0, 0⟩ n)
  else normalizeV (projectOnPlane ⟨0, 1, 0⟩ n)

open Classical in
/-- `Math.atan2` (never evaluated by the claims; the sort only needs it to
be a function). -/
noncomputable def atan2R (y x : ℝ) : ℝ :=
  if 0 < x then Real.arctan (y / x)
  else if x < 0 then
    (if 0 ≤ y then Real.arctan (y / x) + Real.pi else Real.arctan (y / x) - Real.pi)
  else
    (if 0 < y then Real.pi / 2 else if y < 0 then -(Real.pi / 2) else 0)

/-- A vertex's sort key: `atan2` of its basis-projected offset from the
centroid. -/
noncomputable def angleKey (centroid bX bY v : Vec3R) : ℝ :=
  atan2R (dotV (subV v centroid) bY) (dotV (subV v centroid) bX)

open Classical in
/-- The angular ordering step: with more than two unique vertices, sort by
angle around the centroid (a stable sort models `Array.prototype.sort`). -/
noncomputable def sortVerts (nrm : Vec3R) (unique : List Vec3R) : List Vec3R :=
  if 2 < unique.length then
    let centroid := smulV (1 / (unique.length : ℝ)) (unique.foldl addV zeroV)
    let bX := basisXOf nrm
    let bY := normalizeV (crossV nrm bX)
    List.insertionSort
      (fun v1 v2 => angleKey centroid bX bY v1 ≤ angleKey centroid bX bY v2) unique
  else unique

/-- The signed shoelace sum over the projected 2-D vertices with wraparound
(`(i+1) % length`). -/
def shoelace (l : List (ℝ × ℝ)) : ℝ :=
  ((l.zip (l.rotate 1)).map (fun pq => pq.1.1 * pq.2.2 - pq.1.2 * pq.2.1)).sum

/-- The normal `calculatePolygonArea` computes from the first three
vertices: `normalize((vertices[1] − vertices[0]) × (vertices[2] −
vertices[0]))`. -/
noncomputable def polyNormal (verts : List Vec3R) : Vec3R :=
  normalizeV (crossV (subV (verts.getD 1 zeroV) (verts.getD 0 zeroV))
    (subV (verts.getD 2 zeroV) (verts.getD 0 zeroV)))

/-- Which of the three identical branch conditions of
`calculatePolygonArea` fires (`absNormalX ≥ absNormalY ∧ absNormalX ≥
absNormalZ`, then the `Y` analogue, else `Z`). -/
inductive Axis : Type where
  | X
  | Y
  | Z
deriving DecidableEq

open Classical in
noncomputable def dominantAxis (n : Vec3R) : Axis :=
  if |n.y| ≤ |n.x| ∧ |n.z| ≤ |n.x| then .X
  else if |n.x| ≤ |n.y| ∧ |n.z| ≤ |n.y| then .Y
  else .Z

/-- Project a vertex to 2-D by dropping the dominant axis (`X` projects to
the YZ plane, `Y` to XZ, `Z` to XY — as in the source's three branches). -/
def projAxis : Axis → Vec3R → ℝ × ℝ
  | .X, v => (v.y, v.z)
  | .Y, v => (v.x, v.z)
  | .Z, v => (v.x, v.y)

/-- The normal component of the chosen axis. -/
def axisComp : Axis → Vec3R → ℝ
  | .X, n => n.x
  | .Y, n => n.y
  | .Z, n => n.z

open Classical in
/-- `calculatePolygonArea`: project onto the plane dropping the dominant
normal axis, take half the absolute shoelace sum, and multiply by
`1 / |dominant component|` unless that scale factor is non-finite (the
`isNaN/isFinite` guard), in which case the unscaled projected area is
returned. -/
noncomputable def calculatePolygonArea (verts : List Vec3R) : ℝ :=
  if verts.length < 3 then 0
  else
    let n := polyNormal verts
    let ax := dominantAxis n
    let projectedArea := |shoelace (verts.map (projAxis ax))| / 2
    let d := |axisComp ax n|
    if d = 0 then projectedArea else projectedArea * (1 / d)

theorem lengthSqV_nonneg (v : Vec3R) : 0 ≤ lengthSqV v := by
  rw [lengthSqV]
  have hx := mul_self_nonneg v.x
  have hy := mul_self_nonneg v.y
  have hz := mul_self_nonneg v.z
  linarith

theorem lengthSqV_pos (v : Vec3R) (h : v ≠ zeroV) : 0 < lengthSqV v := by
  rcases lt_or_eq_of_le (lengthSqV_nonneg v) with hlt | heq
  · exact hlt
  · exfalso
    apply h
    have h0 : v.x * v.x + v.y * v.y + v.z * v.z = 0 := by
      have := heq.symm
      rwa [lengthSqV] at this
    have hx : v.x = 0 := by
      have h2 : v.x * v.x ≤ 0 := by nlinarith [mul_self_nonneg v.y, mul_self_nonneg v.z]
      exact mul_self_eq_zero.mp (le_antisymm h2 (mul_self_nonneg v.x))
    have hy : v.y = 0 := by
      have h2 : v.y * v.y ≤ 0 := by nlinarith [mul_self_nonneg v.x, mul_self_nonneg v.z]
      exact mul_self_eq_zero.mp (le_antisymm h2 (mul_self_nonneg v.y))
    have hz : v.z = 0 := by
      have h2 : v.z * v.z ≤ 0 := by nlinarith [mul_self_nonneg v.x, mul_self_nonneg v.y]
      exact mul_self_eq_zero.mp (le_antisymm h2 (mul_self_nonneg v.z))
    ext <;> simp [zeroV, hx, hy, hz]

theorem lengthV_pos (v : Vec3R) (h : v ≠ zeroV) : 0 < lengthV v :=
  Real.sqrt_pos.mpr (lengthSqV_pos v h)

theorem normalizeV_of_ne (v : Vec3R) (h : lengthV v ≠ 0) :
    normalizeV v = smulV (1 / lengthV v) v := by
  rw [normalizeV, if_neg h]

theorem dominantAxis_smul (c : ℝ) (hc : 0 < c) (n : Vec3R) :
    dominantAxis (smulV c n) = dominantAxis n := by
  have hx : |(smulV c n).x| = c * |n.x| := by
    simp [smulV, abs_mul, abs_of_pos hc]
  have hy : |(smulV c n).y| = c * |n.y| := by
    simp [smulV, abs_mul, abs_of_pos hc]
  have hz : |(smulV c n).z| = c * |n.z| := by
    simp [smulV, abs_mul, abs_of_pos hc]
  rw [dominantAxis, dominantAxis]
  simp only [hx, hy, hz, mul_le_mul_left hc]

theorem axisComp_smul (a : Axis) (c : ℝ) (n : Vec3R) :
    axisComp a (smulV c n) = c * axisComp a n := by
  cases a <;> simp [axisComp, smulV]

theorem dominant_comp_ne_zero (n : Vec3R) (h : n ≠ zeroV) :
    axisComp (dominantAxis n) n ≠ 0 := by
  rw [dominantAxis]
  by_cases h1 : |n.y| ≤ |n.x| ∧ |n.z| ≤ |n.x|
  · rw [if_pos h1]
    intro hx0
    simp only [axisComp] at hx0
    apply h
    have hy : n.y = 0 := by
      have := h1.1
      rw [hx0] at this
      simpa using abs_nonpos_iff.mp (by simpa using this)
    have hz : n.z = 0 := by
      have := h1.2
      rw [hx0] at this
      simpa using abs_nonpos_iff.mp (by simpa using this)
    ext <;> simp [zeroV, hx0, hy, hz]
  · rw [if_neg h1]
    by_cases h2 : |n.x| ≤ |n.y| ∧ |n.z| ≤ |n.y|
    · rw [if_pos h2]
      intro hy0
      simp only [axisComp] at hy0
      apply h
      have hx : n.x = 0 := by
        have := h2.1
        rw [hy0] at this
        simpa using abs_nonpos_iff.mp (by simpa using this)
      have hz : n.z = 0 := by
        have := h2.2
        rw [hy0] at this
        simpa using abs_nonpos_iff.mp (by simpa using this)
      ext <;> simp [zeroV, hx, hy0, hz]
    · rw [if_neg h2]
      intro hz0
      simp only [axisComp] at hz0
      have hz' : |n.z| = 0 := by rw [hz0]; exact abs_zero
      have ha : ¬ (|n.y| ≤ |n.x|) := fun hyx => h1 ⟨hyx, by rw [hz']; exact abs_nonneg _⟩
      have hb : ¬ (|n.x| ≤ |n.y|) := fun hxy => h2 ⟨hxy, by rw [hz']; exact abs_nonneg _⟩
      exact ha (le_of_not_le hb)

theorem shoelace_projX (u v w : Vec3R) :
    shoelace ([u, v, w].map (projAxis .X)) = (crossV (subV v u) (subV w u)).x := by
  simp [projAxis, shoelace, List.rotate, crossV, subV]
  ring

theorem shoelace_projY (u v w : Vec3R) :
    shoelace ([u, v, w].map (projAxis .Y)) = -((crossV (subV v u) (subV w u)).y) := by
  simp [projAxis, shoelace, List.rotate, crossV, subV]
  ring

theorem shoelace_projZ (u v w : Vec3R) :
    shoelace ([u, v, w].map (projAxis .Z)) = (crossV (subV v u) (subV w u)).z := by
  simp [projAxis, shoelace, List.rotate, crossV, subV]
  ring

/-- On a non-degenerate triangle `calculatePolygonArea`'s projection and
rescale recover the exact triangle area, half the cross product's length,
whatever the vertex order given. -/
theorem calcArea_triangle (u v w : Vec3R)
    (h : crossV (subV v u) (subV w u) ≠ zeroV) :
    calculatePolygonArea [u, v, w] = lengthV (crossV (subV v u) (subV w u)) / 2 := by
  set cr := crossV (subV v u) (subV w u) with hcr
  have hs : 0 < lengthV cr := lengthV_pos _ h
  have hsne : lengthV cr ≠ 0 := ne_of_gt hs
  have hcpos : 0 < 1 / lengthV cr := by positivity
  have hpn : polyNormal [u, v, w] = smulV (1 / lengthV cr) cr := by
    rw [polyNormal]
    show normalizeV (crossV (subV v u) (subV w u)) = _
    rw [← hcr, normalizeV_of_ne _ hsne]
  have hd0 : axisComp (dominantAxis cr) cr ≠ 0 := dominant_comp_ne_zero cr h
  rw [calculatePolygonArea, if_neg (by simp)]
  simp only [hpn, dominantAxis_smul _ hcpos, axisComp_smul]
  have habs : |1 / lengthV cr * axisComp (dominantAxis cr) cr| =
      (1 / lengthV cr) * |axisComp (dominantAxis cr) cr| := by
    rw [abs_mul, abs_of_pos hcpos]
  rw [habs, if_neg (by
    intro h0
    rcases mul_eq_zero.mp h0 with hc0 | habs0
    · exact absurd hc0 (ne_of_gt hcpos)
    · exact hd0 (abs_eq_zero.mp habs0))]
  rcases hax : dominantAxis cr with _ | _ | _
  · rw [shoelace_projX, ← hcr]
    show |cr.x| / 2 * (1 / (1 / lengthV cr * |axisComp Axis.X cr|)) = lengthV cr / 2
    have hx0 : |cr.x| ≠ 0 := by
      rw [hax] at hd0
      simpa [axisComp, abs_eq_zero] using hd0
    simp only [axisComp]
    field_simp
    ring
  · rw [shoelace_projY, ← hcr, abs_neg]
    show |cr.y| / 2 * (1 / (1 / lengthV cr * |axisComp Axis.Y cr|)) = lengthV cr / 2
    have hy0 : |cr.y| ≠ 0 := by
      rw [hax] at hd0
      simpa [axisComp, abs_eq_zero] using hd0
    simp only [axisComp]
    field_simp
    ring
  · rw [shoelace_projZ, ← hcr]
    show |cr.z| / 2 * (1 / (1 / lengthV cr * |axisComp Axis.Z cr|)) = lengthV cr / 2
    have hz0 : |cr.z| ≠ 0 := by
      rw [hax] at hd0
      simpa [axisComp, abs_eq_zero] using hd0
    simp only [axisComp]
    field_simp
    ring

/-- A merged Face: ordered boundary vertices, the seed triangle's normal and
the polygon area. -/
structure FaceR where
  vertices : List Vec3R
  normal : Vec3R
  area : ℝ

/-- Build the Face of one group: the seed's normal, the deduplicated and
angularly sorted vertices of all the group's triangles, and their area. -/
noncomputable def buildFace (ts : List TriR) (g : List ℕ) : FaceR :=
  let currentNormal := triNormal (ts.getD (g.headD 0) degTri)
  let unique := dedupVerts ((g.map (fun i => ts.getD i degTri)).flatMap
    (fun t => [t.a, t.b, t.c]))
  let sorted := sortVerts currentNormal unique
  ⟨sorted, currentNormal, calculatePolygonArea sorted⟩

open Classical in
/-- `getFacesWithAreas` on a mesh object: group the triangles greedily, turn
each group into a Face, drop zero-area faces, sort by area descending. -/
noncomputable def getFacesWithAreas (o : FaceObj) : List FaceR :=
  let ts := trianglesOf o
  let groups := groupLoop (triCompat ts) (List.range ts.length) ∅
  let faces := (groups.map (buildFace ts)).filter (fun f => decide (0 < f.area))
  List.insertionSort (fun f1 f2 => f2.area ≤ f1.area) faces

/-- Modelled from the spec: the area of one triangle — half the length of
the edge cross product ("the sum of the triangles' individual areas" of §8;
the code never computes per-triangle areas itself). -/
noncomputable def triArea (t : TriR) : ℝ :=
  lengthV (crossV (subV t.b t.a) (subV t.c t.a)) / 2

/-- Modelled from the spec: the sum of the individual triangles' areas. -/
noncomputable def sumTriangleAreas (o : FaceObj) : ℝ :=
  ((trianglesOf o).map triArea).sum

theorem negV_eq_zero_iff (v : Vec3R) : negV v = zeroV ↔ v = zeroV := by
  constructor <;> intro h0
  · have hx := congrArg Vec3R.x h0
    have hy := congrArg Vec3R.y h0
    have hz := congrArg Vec3R.z h0
    simp only [negV, zeroV, neg_eq_zero] at hx hy hz
    ext <;> simp [zeroV, hx, hy, hz]
  · rw [h0]
    ext <;> simp [negV, zeroV]

theorem dedupVerts_three (a b c : Vec3R) (h1 : keyOf a ≠ keyOf b)
    (h2 : keyOf a ≠ keyOf c) (h3 : keyOf b ≠ keyOf c) :
    dedupVerts [a, b, c] = [a, b, c] := by
  simp [dedupVerts, insertKV, h1, h2, h3]

theorem dedupVerts_three_dup (a b c : Vec3R) (h1 : keyOf a ≠ keyOf b)
    (h2 : keyOf a ≠ keyOf c) (h3 : keyOf b ≠ keyOf c) :
    dedupVerts [a, b, c, a, b, c] = [a, b, c] := by
  simp [dedupVerts, insertKV, h1, h2, h3, h1.symm, h2.symm, h3.symm]

/-- Whatever order the angular sort produces on three distinct vertices,
the polygon area is the triangle's area. -/
theorem calcArea_sortVerts_triangle (nrm a b c : Vec3R)
    (h : crossV (subV b a) (subV c a) ≠ zeroV) :
    calculatePolygonArea (sortVerts nrm [a, b, c]) =
      lengthV (crossV (subV b a) (subV c a)) / 2 := by
  have e1 : crossV (subV a b) (subV c b) = negV (crossV (subV b a) (subV c a)) := by
    ext <;> simp [crossV, subV, negV] <;> ring
  have e2 : crossV (subV c b) (subV a b) = crossV (subV b a) (subV c a) := by
    ext <;> simp [crossV, subV] <;> ring
  have e3 : crossV (subV c a) (subV b a) = negV (crossV (subV b a) (subV c a)) := by
    ext <;> simp [crossV, subV, negV] <;> ring
  have e4 : crossV (subV a c) (subV b c) = crossV (subV b a) (subV c a) := by
    ext <;> simp [crossV, subV] <;> ring
  have e5 : crossV (subV b c) (subV a c) = negV (crossV (subV b a) (subV c a)) := by
    ext <;> simp [crossV, subV, negV] <;> ring
  have hneg : negV (crossV (subV b a) (subV c a)) ≠ zeroV :=
    fun h0 => h ((negV_eq_zero_iff _).mp h0)
  rw [sortVerts, if_pos (by simp)]
  simp only [List.insertionSort, List.orderedInsert]
  split_ifs with hbc
  · simp only [List.orderedInsert]
    split_ifs
    · exact calcArea_triangle a b c h
    · rw [calcArea_triangle b a c (by rw [e1]; exact hneg), e1, lengthV_neg]
    · rw [calcArea_triangle b c a (by rw [e2]; exact h), e2]
  · simp only [List.orderedInsert]
    split_ifs
    · rw [calcArea_triangle a c b (by rw [e3]; exact hneg), e3, lengthV_neg]
    · rw [calcArea_triangle c a b (by rw [e4]; exact h), e4]
    · rw [calcArea_triangle c b a (by rw [e5]; exact hneg), e5, lengthV_neg]

/-- C6 (amended): area conservation fails in general — merging deduplicates
shared vertices, so coplanar triangles that repeat vertices undercount (see
the counterexample) — but it holds exactly for a mesh consisting of one
non-degenerate triangle with distinct 4-decimal vertex keys: the single
merged Face's area equals the sum of the triangles' areas (that triangle's
area), with no tolerance needed. -/
theorem merged_face_area_single_triangle (A B C : Vec3R)
    (h : crossV (subV B A) (subV C A) ≠ zeroV)
    (h1 : keyOf A ≠ keyOf B) (h2 : keyOf A ≠ keyOf C) (h3 : keyOf B ≠ keyOf C) :
    (getFacesWithAreas ⟨[A, B, C], none, idAff⟩).map FaceR.area =
      [sumTriangleAreas ⟨[A, B, C], none, idAff⟩] := by
  have hts : trianglesOf ⟨[A, B, C], none, idAff⟩ = [⟨A, B, C⟩] := by
    simp [trianglesOf, chunk3, applyAff_id]
  have hgroups : groupLoop (triCompat [(⟨A, B, C⟩ : TriR)]) (List.range 1) ∅ = [[0]] := by
    have hr : List.range 1 = [0] := rfl
    rw [hr]
    simp [groupLoop, scanGroup]
  have hbf0 : buildFace [(⟨A, B, C⟩ : TriR)] [0] =
      ⟨sortVerts (triNormal ⟨A, B, C⟩) (dedupVerts [A, B, C]), triNormal ⟨A, B, C⟩,
        calculatePolygonArea (sortVerts (triNormal ⟨A, B, C⟩) (dedupVerts [A, B, C]))⟩ := rfl
  have hbf : buildFace [(⟨A, B, C⟩ : TriR)] [0] =
      ⟨sortVerts (triNormal ⟨A, B, C⟩) [A, B, C], triNormal ⟨A, B, C⟩,
        calculatePolygonArea (sortVerts (triNormal ⟨A, B, C⟩) [A, B, C])⟩ := by
    rw [hbf0]
    simp only [dedupVerts_three A B C h1 h2 h3]
  have harea : calculatePolygonArea (sortVerts (triNormal ⟨A, B, C⟩) [A, B, C]) =
      lengthV (crossV (subV B A) (subV C A)) / 2 :=
    calcArea_sortVerts_triangle _ _ _ _ h
  have hpos : (0 : ℝ) < calculatePolygonArea (sortVerts (triNormal ⟨A, B, C⟩) [A, B, C]) := by
    rw [harea]
    have := lengthV_pos _ h
    linarith
  rw [getFacesWithAreas]
  simp only [hts]
  rw [show ([(⟨A, B, C⟩ : TriR)] : List TriR).length = 1 from rfl, hgroups]
  simp only [List.map_cons, List.map_nil, hbf]
  rw [List.filter_cons_of_pos (by simpa using hpos), List.filter_nil]
  simp only [List.insertionSort, List.orderedInsert, List.map_cons, List.map_nil]
  rw [harea]
  rw [sumTriangleAreas, hts]
  simp [triArea]

theorem roundFix4_eval (x : ℝ) (z : ℤ) (hlo : (z : ℝ) ≤ x * 10000 + 1 / 2)
    (hhi : x * 10000 + 1 / 2 < z + 1) : roundFix4 x = z := by
  rw [roundFix4]
  exact Int.floor_eq_iff.mpr ⟨hlo, hhi⟩

theorem keyOf_o : keyOf ⟨0, 0, 0⟩ = ((0 : ℤ), (0 : ℤ), (0 : ℤ)) := by
  show (roundFix4 0, roundFix4 0, roundFix4 0) = _
  rw [roundFix4_eval 0 0 (by norm_num) (by norm_num)]

theorem keyOf_ex : keyOf ⟨2, 0, 0⟩ = ((20000 : ℤ), (0 : ℤ), (0 : ℤ)) := by
  show (roundFix4 2, roundFix4 0, roundFix4 0) = _
  rw [roundFix4_eval 2 20000 (by norm_num) (by norm_num),
    roundFix4_eval 0 0 (by norm_num) (by norm_num)]

theorem keyOf_ey : keyOf ⟨0, 2, 0⟩ = ((0 : ℤ), (20000 : ℤ), (0 : ℤ)) := by
  show (roundFix4 0, roundFix4 2, roundFix4 0) = _
  rw [roundFix4_eval 2 20000 (by norm_num) (by norm_num),
    roundFix4_eval 0 0 (by norm_num) (by norm_num)]

theorem cross_seed_eval :
    crossV (subV (⟨0, 2, 0⟩ : Vec3R) ⟨2, 0, 0⟩) (subV ⟨0, 0, 0⟩ ⟨2, 0, 0⟩) = ⟨0, 0, 4⟩ := by
  ext <;> norm_num [crossV, subV]

theorem cross_base_eval :
    crossV (subV (⟨2, 0, 0⟩ : Vec3R) ⟨0, 0, 0⟩) (subV ⟨0, 2, 0⟩ ⟨0, 0, 0⟩) = ⟨0, 0, 4⟩ := by
  ext <;> norm_num [crossV, subV]

theorem lengthV_z4 : lengthV ⟨0, 0, 4⟩ = 4 := by
  rw [lengthV, show lengthSqV ⟨0, 0, 4⟩ = 16 by norm_num [lengthSqV],
    show (16 : ℝ) = 4 ^ 2 by norm_num, Real.sqrt_sq (by norm_num : (0 : ℝ) ≤ 4)]

theorem cross_base_ne :
    crossV (subV (⟨2, 0, 0⟩ : Vec3R) ⟨0, 0, 0⟩) (subV ⟨0, 2, 0⟩ ⟨0, 0, 0⟩) ≠ zeroV := by
  rw [cross_base_eval]
  intro h0
  have hz := congrArg Vec3R.z h0
  norm_num [zeroV] at hz

theorem triNormal_eval :
    triNormal ⟨⟨0, 0, 0⟩, ⟨2, 0, 0⟩, ⟨0, 2, 0⟩⟩ = ⟨0, 0, 1⟩ := by
  show normalizeV (crossV (subV (⟨0, 2, 0⟩ : Vec3R) ⟨2, 0, 0⟩) (subV ⟨0, 0, 0⟩ ⟨2, 0, 0⟩)) = _
  rw [cross_seed_eval, normalizeV_of_ne _ (by rw [lengthV_z4]; norm_num), lengthV_z4]
  ext <;> norm_num [smulV]

/-- C6 witness: the triangle (0,0,0), (2,0,0), (0,2,0) has a nonzero edge
cross product and distinct vertex keys, and its single merged Face's area
equals the sum of the triangle areas. -/
theorem merged_face_area_single_triangle_witness :
    crossV (subV (⟨2, 0, 0⟩ : Vec3R) ⟨0, 0, 0⟩) (subV ⟨0, 2, 0⟩ ⟨0, 0, 0⟩) ≠ zeroV ∧
    keyOf ⟨0, 0, 0⟩ ≠ keyOf ⟨2, 0, 0⟩ ∧ keyOf ⟨0, 0, 0⟩ ≠ keyOf ⟨0, 2, 0⟩ ∧
    keyOf ⟨2, 0, 0⟩ ≠ keyOf ⟨0, 2, 0⟩ ∧
    (getFacesWithAreas ⟨[⟨0, 0, 0⟩, ⟨2, 0, 0⟩, ⟨0, 2, 0⟩], none, idAff⟩).map FaceR.area =
      [sumTriangleAreas ⟨[⟨0, 0, 0⟩, ⟨2, 0, 0⟩, ⟨0, 2, 0⟩], none, idAff⟩] := by
  have hk1 : keyOf (⟨0, 0, 0⟩ : Vec3R) ≠ keyOf ⟨2, 0, 0⟩ := by
    rw [keyOf_o, keyOf_ex]; decide
  have hk2 : keyOf (⟨0, 0, 0⟩ : Vec3R) ≠ keyOf ⟨0, 2, 0⟩ := by
    rw [keyOf_o, keyOf_ey]; decide
  have hk3 : keyOf (⟨2, 0, 0⟩ : Vec3R) ≠ keyOf ⟨0, 2, 0⟩ := by
    rw [keyOf_ex, keyOf_ey]; decide
  exact ⟨cross_base_ne, hk1, hk2, hk3,
    merged_face_area_single_triangle ⟨0, 0, 0⟩ ⟨2, 0, 0⟩ ⟨0, 2, 0⟩ cross_base_ne hk1 hk2 hk3⟩

/-- C6 counterexample: a mesh of two identical coplanar triangles (each of
area 2). The merger deduplicates the shared vertices, so the single merged
Face has area 2 while the triangles' areas sum to 4 — far outside the 1e-6
relative tolerance. -/
theorem face_area_conservation_cex :
    (getFacesWithAreas ⟨[⟨0, 0, 0⟩, ⟨2, 0, 0⟩, ⟨0, 2, 0⟩, ⟨0, 0, 0⟩, ⟨2, 0, 0⟩, ⟨0, 2, 0⟩],
        none, idAff⟩).map FaceR.area = [2] ∧
    sumTriangleAreas ⟨[⟨0, 0, 0⟩, ⟨2, 0, 0⟩, ⟨0, 2, 0⟩, ⟨0, 0, 0⟩, ⟨2, 0, 0⟩, ⟨0, 2, 0⟩],
        none, idAff⟩ = 4 ∧
    ¬ (|(2 : ℝ) - 4| ≤ 1e-6 * 4) := by
  have hk1 : keyOf (⟨0, 0, 0⟩ : Vec3R) ≠ keyOf ⟨2, 0, 0⟩ := by
    rw [keyOf_o, keyOf_ex]; decide
  have hk2 : keyOf (⟨0, 0, 0⟩ : Vec3R) ≠ keyOf ⟨0, 2, 0⟩ := by
    rw [keyOf_o, keyOf_ey]; decide
  have hk3 : keyOf (⟨2, 0, 0⟩ : Vec3R) ≠ keyOf ⟨0, 2, 0⟩ := by
    rw [keyOf_ex, keyOf_ey]; decide
  have hts : trianglesOf ⟨[⟨0, 0, 0⟩, ⟨2, 0, 0⟩, ⟨0, 2, 0⟩, ⟨0, 0, 0⟩, ⟨2, 0, 0⟩, ⟨0, 2, 0⟩],
      none, idAff⟩ =
      [⟨⟨0, 0, 0⟩, ⟨2, 0, 0⟩, ⟨0, 2, 0⟩⟩, ⟨⟨0, 0, 0⟩, ⟨2, 0, 0⟩, ⟨0, 2, 0⟩⟩] := by
    simp [trianglesOf, chunk3, applyAff_id]
  have hpn : planeNormal ⟨0, 0, 0⟩ ⟨2, 0, 0⟩ ⟨0, 2, 0⟩ = (⟨0, 0, 1⟩ : Vec3R) := triNormal_eval
  have hdA : planeDist ⟨0, 0, 0⟩ ⟨2, 0, 0⟩ ⟨0, 2, 0⟩ ⟨0, 0, 0⟩ = 0 := by
    rw [planeDist, planeConstant, hpn]; norm_num [dotV]
  have hdB : planeDist ⟨0, 0, 0⟩ ⟨2, 0, 0⟩ ⟨0, 2, 0⟩ ⟨2, 0, 0⟩ = 0 := by
    rw [planeDist, planeConstant, hpn]; norm_num [dotV]
  have hdC : planeDist ⟨0, 0, 0⟩ ⟨2, 0, 0⟩ ⟨0, 2, 0⟩ ⟨0, 2, 0⟩ = 0 := by
    rw [planeDist, planeConstant, hpn]; norm_num [dotV]
  have hcompat : triCompat
      [⟨⟨0, 0, 0⟩, ⟨2, 0, 0⟩, ⟨0, 2, 0⟩⟩, ⟨⟨0, 0, 0⟩, ⟨2, 0, 0⟩, ⟨0, 2, 0⟩⟩] 0 1 = true := by
    have hrfl : triCompat
        [⟨⟨0, 0, 0⟩, ⟨2, 0, 0⟩, ⟨0, 2, 0⟩⟩, ⟨⟨0, 0, 0⟩, ⟨2, 0, 0⟩, ⟨0, 2, 0⟩⟩] 0 1 =
        decide ((1 - 0.01 : ℝ) <
            dotV (triNormal ⟨⟨0, 0, 0⟩, ⟨2, 0, 0⟩, ⟨0, 2, 0⟩⟩)
              (triNormal ⟨⟨0, 0, 0⟩, ⟨2, 0, 0⟩, ⟨0, 2, 0⟩⟩) ∧
          |planeDist ⟨0, 0, 0⟩ ⟨2, 0, 0⟩ ⟨0, 2, 0⟩ ⟨0, 0, 0⟩| ≤ 0.01 ∧
          |planeDist ⟨0, 0, 0⟩ ⟨2, 0, 0⟩ ⟨0, 2, 0⟩ ⟨2, 0, 0⟩| ≤ 0.01 ∧
          |planeDist ⟨0, 0, 0⟩ ⟨2, 0, 0⟩ ⟨0, 2, 0⟩ ⟨0, 2, 0⟩| ≤ 0.01) := rfl
    rw [hrfl, decide_eq_true_eq]
    refine ⟨?_, ?_, ?_, ?_⟩
    · rw [triNormal_eval]; norm_num [dotV]
    · rw [hdA]; norm_num
    · rw [hdB]; norm_num
    · rw [hdC]; norm_num
  have hgroups : groupLoop (triCompat
      [⟨⟨0, 0, 0⟩, ⟨2, 0, 0⟩, ⟨0, 2, 0⟩⟩, ⟨⟨0, 0, 0⟩, ⟨2, 0, 0⟩, ⟨0, 2, 0⟩⟩])
      (List.range 2) ∅ = [[0, 1]] := by
    have hr : List.range 2 = [0, 1] := rfl
    rw [hr]
    simp [groupLoop, scanGroup, hcompat]
  have hbf0 : buildFace
      [⟨⟨0, 0, 0⟩, ⟨2, 0, 0⟩, ⟨0, 2, 0⟩⟩, ⟨⟨0, 0, 0⟩, ⟨2, 0, 0⟩, ⟨0, 2, 0⟩⟩] [0, 1] =
      ⟨sortVerts (triNormal ⟨⟨0, 0, 0⟩, ⟨2, 0, 0⟩, ⟨0, 2, 0⟩⟩)
          (dedupVerts [⟨0, 0, 0⟩, ⟨2, 0, 0⟩, ⟨0, 2, 0⟩, ⟨0, 0, 0⟩, ⟨2, 0, 0⟩, ⟨0, 2, 0⟩]),
        triNormal ⟨⟨0, 0, 0⟩, ⟨2, 0, 0⟩, ⟨0, 2, 0⟩⟩,
        calculatePolygonArea (sortVerts (triNormal ⟨⟨0, 0, 0⟩, ⟨2, 0, 0⟩, ⟨0, 2, 0⟩⟩)
          (dedupVerts [⟨0, 0, 0⟩, ⟨2, 0, 0⟩, ⟨0, 2, 0⟩, ⟨0, 0, 0⟩, ⟨2, 0, 0⟩, ⟨0, 2, 0⟩]))⟩ := rfl
  have harea : calculatePolygonArea (sortVerts (triNormal ⟨⟨0, 0, 0⟩, ⟨2, 0, 0⟩, ⟨0, 2, 0⟩⟩)
      [⟨0, 0, 0⟩, ⟨2, 0, 0⟩, ⟨0, 2, 0⟩]) = 2 := by
    rw [calcArea_sortVerts_triangle _ _ _ _ cross_base_ne, cross_base_eval, lengthV_z4]
    norm_num
  have hbf : buildFace
      [⟨⟨0, 0, 0⟩, ⟨2, 0, 0⟩, ⟨0, 2, 0⟩⟩, ⟨⟨0, 0, 0⟩, ⟨2, 0, 0⟩, ⟨0, 2, 0⟩⟩] [0, 1] =
      ⟨sortVerts (triNormal ⟨⟨0, 0, 0⟩, ⟨2, 0, 0⟩, ⟨0, 2, 0⟩⟩)
          [⟨0, 0, 0⟩, ⟨2, 0, 0⟩, ⟨0, 2, 0⟩],
        triNormal ⟨⟨0, 0, 0⟩, ⟨2, 0, 0⟩, ⟨0, 2, 0⟩⟩, 2⟩ := by
    rw [hbf0]
    simp only [dedupVerts_three_dup _ _ _ hk1 hk2 hk3, harea]
  refine ⟨?_, ?_, by norm_num⟩
  · rw [getFacesWithAreas]
    simp only [hts]
    rw [show ([⟨⟨0, 0, 0⟩, ⟨2, 0, 0⟩, ⟨0, 2, 0⟩⟩,
        ⟨⟨0, 0, 0⟩, ⟨2, 0, 0⟩, ⟨0, 2, 0⟩⟩] : List TriR).length = 2 from rfl, hgroups]
    simp only [List.map_cons, List.map_nil, hbf]
    rw [List.filter_cons_of_pos (by rw [decide_eq_true_eq]; norm_num), List.filter_nil]
    simp only [List.insertionSort, List.orderedInsert, List.map_cons, List.map_nil]
  · rw [sumTriangleAreas, hts]
    simp only [List.map_cons, List.map_nil, List.sum_cons, List.sum_nil]
    show lengthV (crossV (subV (⟨2, 0, 0⟩ : Vec3R) ⟨0, 0, 0⟩) (subV ⟨0, 2, 0⟩ ⟨0, 0, 0⟩)) / 2 +
      (lengthV (crossV (subV (⟨2, 0, 0⟩ : Vec3R) ⟨0, 0, 0⟩) (subV ⟨0, 2, 0⟩ ⟨0, 0, 0⟩)) / 2 + 0) = 4
    rw [cross_base_eval, lengthV_z4]
    norm_num

/-- C9: the greedy grouping phase partitions the triangle index list — the
concatenation of the groups is a permutation of `0 … n−1`, so every
triangle lands in exactly one coplanar group, none is duplicated across
faces and none is left unconsidered. -/
theorem grouping_partitions_triangles (o : FaceObj) :
    ((groupLoop (triCompat (trianglesOf o))
        (List.range (trianglesOf o).length) ∅).flatten).Perm
      (List.range (trianglesOf o).length) := by
  have h := groupLoop_flatten_perm (triCompat (trianglesOf o))
    (List.range (trianglesOf o).length) ∅ (List.nodup_range _)
  simpa using h

end SolarPanel
